import Mathlib

/-!
Verification development for the reliable-transport send side of the hifi
repository (udt SendQueue).  The repository excerpt contains the class
declaration SendQueue.h (src/unnamed/part_002, namespace udt); the member
function bodies of SendQueue, SequenceNumber and LossList are not part of the
excerpt, so the behaviour of those members is modelled from the specification,
faithful to its words, on top of the declared data members of the header.
Sequence numbers at the queue level are modelled as unbounded naturals ordered
linearly; the circular wrap-around comparison of the SequenceNumber component
is modelled separately below (it coincides with the linear order while the
live window of sequence numbers spans less than half the modulus).
-/

namespace udt

/-- Modelled from the spec: SequenceNumber is an unsigned integer that wraps at
a fixed modulus.  The missing SequenceNumber.h is not in the excerpt; the
SendQueue header stores the counter in a uint32, so the wrap value is taken as
2 to the 32. -/
def seqMod : Nat := 4294967296

/-- Modelled from the spec: next() wraps to zero after the maximum
representable value. -/
def seqNext (a : Nat) : Nat := (a + 1) % seqMod

/-- Modelled from the spec: the forward distance, modulo the wrap value, from
y to x. -/
def seqFwdDist (y x : Nat) : Nat := (x % seqMod + seqMod - y % seqMod) % seqMod

/-- Modelled from the spec: a sequence number is greater than another if the
forward distance from the second to the first is less than half the modulus.
A number is not greater than itself (distance zero), so the comparison is a
strict order away from the antipode. -/
def seqGT (x y : Nat) : Bool :=
  decide (0 < seqFwdDist y x) && decide (seqFwdDist y x < seqMod / 2)

/-- Modelled from the spec: the SequenceNumber constructor from a raw counter
value, as used by getCurrentSequenceNumber in the header (line 200), reduces
the value into the representable range. -/
def seqOfCounter (n : Nat) : Nat := n % seqMod

/-- Modelled from the spec: a packet owns its serialized byte payload and send
metadata (whether it begins a new logical message, which drives message-number
assignment). -/
structure Packet where
  bytes : List Nat
  beginsMessage : Bool
deriving DecidableEq

/-- Modelled from the spec: the LossList is a sorted set of closed
sequence-number ranges (a range is a pair, first member the low end). -/
abbrev LossList := List (Nat × Nat)

/-- Membership of a single sequence number in the set a loss list denotes. -/
def lossMem (k : Nat) (L : LossList) : Bool :=
  L.any fun r => decide (r.1 ≤ k) && decide (k ≤ r.2)

/-- All ranges of a loss list are valid (low end at most high end). -/
def lossValid (L : LossList) : Bool :=
  L.all fun r => decide (r.1 ≤ r.2)

/-- The representation invariant of a loss list whose first range starts no
lower than the bound: ranges are valid, sorted, and separated by gaps (no two
ranges overlap or are adjacent). -/
def lossSortedFrom (lo : Nat) : LossList → Bool
  | [] => true
  | r :: t => (decide (lo ≤ r.1) && decide (r.1 ≤ r.2)) && lossSortedFrom (r.2 + 2) t

/-- The full representation invariant of a loss list. -/
def lossWF (L : LossList) : Bool := lossSortedFrom 0 L

/-- Modelled from the spec: insert(range) adds a contiguous range to the loss
set, merging overlapping or adjacent ranges to keep the representation
compact. -/
def lossInsert : Nat × Nat → LossList → LossList
  | r, [] => [r]
  | r, s :: t =>
    if r.2 + 1 < s.1 then r :: s :: t
    else if s.2 + 1 < r.1 then s :: lossInsert r t
    else lossInsert (min r.1 s.1, max r.2 s.2) t

/-- Modelled from the spec: remove a single sequence number from the loss set
(splitting the range that holds it); removing an absent number is a no-op. -/
def lossRemove (x : Nat) : LossList → LossList
  | [] => []
  | r :: t =>
    if x < r.1 then r :: t
    else if r.2 < x then r :: lossRemove x t
    else
      (if r.1 < x then [(r.1, x - 1)] else []) ++
        (if x < r.2 then [(x + 1, r.2)] else []) ++ t

/-- Modelled from the spec: prune every sequence number older than the
cumulative acknowledgment pointer from the loss set. -/
def lossRemoveBefore (s : Nat) (L : LossList) : LossList :=
  L.filterMap fun r =>
    if r.2 < s then none
    else if r.1 < s then some (s, r.2)
    else some r

/-- Modelled from the spec: getFirstSequenceNumber returns the lowest
outstanding lost sequence number (the low end of the first range). -/
def getFirstSequenceNumber : LossList → Nat
  | [] => 0
  | r :: _ => r.1

/-- The notifications the queue emits (header lines 215-218): packetSent with
byte-count metadata after a successful new transmission, packetRetransmitted
after a successful resend, queueInnactive once when the inactivity timeout is
exceeded. -/
inductive Event where
  | packetSent (dataSize payloadSize : Nat)
  | packetRetransmitted
  | queueInnactive
deriving DecidableEq

def isSentEv : Event → Bool
  | .packetSent _ _ => true
  | _ => false

def isInactiveEv : Event → Bool
  | .queueInnactive => true
  | _ => false

/-- True when no new-packet notification appears after an inactivity
notification in the event trace. -/
def noNewAfterInactive : List Event → Bool
  | [] => true
  | e :: rest =>
    if isInactiveEv e then rest.all fun x => !isSentEv x
    else noNewAfterInactive rest

/-- The state of a SendQueue, one field per data member declared in
SendQueue.h (src/unnamed/part_002, lines 238-264).  The two mirror fields
_currentSequenceNumber and _atomicCurrentSequenceNumber, which the
implementation keeps equal, are modelled by the single field
currentSequenceNumber.  Locks and the condition variable have no state
content; timestamps are naturals (microseconds). -/
structure SendQueue where
  packets : List Packet
  lastACKSequenceNumber : Nat
  currentMessageNumber : Nat
  currentSequenceNumber : Nat
  packetSendPeriod : Nat
  isRunning : Bool
  flowWindowSize : Nat
  flowWindowWasFull : Bool
  flowWindowFullSince : Nat
  naks : LossList
  sentPackets : List (Nat × Packet)
deriving DecidableEq

/-- Look up the in-flight index: the exact packet recorded for a sequence
number, if still unacknowledged. -/
def inFlight (q : SendQueue) (k : Nat) : Option Packet :=
  (q.sentPackets.find? fun kp => kp.1 == k).map Prod.snd

/-- The outcome of one scheduler cycle: the updated state, the notifications
emitted, and the wire output (sequence number and bytes of each datagram
actually handed to the socket). -/
structure CycleResult where
  state : SendQueue
  events : List Event
  wire : List (Nat × List Nat)
deriving DecidableEq

/-- From SendQueue.h line 200: getCurrentSequenceNumber is a const member
returning SequenceNumber(_atomicCurrentSequenceNumber); modelled as a function
returning the value together with the (necessarily unchanged) state. -/
def getCurrentSequenceNumber (q : SendQueue) : Nat × SendQueue :=
  (seqOfCounter q.currentSequenceNumber, q)

/-- From SendQueue.h line 202: setFlowWindowSize assigns the window size. -/
def setFlowWindowSize (n : Nat) (q : SendQueue) : SendQueue :=
  { q with flowWindowSize := n }

/-- Modelled from the spec: queuePacket appends to the pending queue
(insertion order is send priority order). -/
def queuePacket (p : Packet) (q : SendQueue) : SendQueue :=
  { q with packets := q.packets ++ [p] }

/-- Modelled from the spec: the queue enters Running when it begins
processing (explicit start or first enqueue); SendQueue::run is not in the
excerpt. -/
def start (q : SendQueue) : SendQueue :=
  { q with isRunning := true }

/-- Modelled from the spec: stop() transitions to Stopped and releases any
packets still pending or in flight. -/
def stop (q : SendQueue) : SendQueue :=
  { q with isRunning := false, packets := [], sentPackets := [] }

/-- Modelled from the spec: ack(seq) advances the cumulative ACK pointer to
seq if seq is newer than the current pointer, purges all in-flight entries and
loss-list entries with sequence numbers older than the new pointer, and clears
the window-was-full flag if the window is no longer full; an older or equal
seq is a no-op (SendQueue.h line 210 declares the slot). -/
def ack (seq : Nat) (q : SendQueue) : SendQueue :=
  if q.lastACKSequenceNumber < seq then
    { q with
      lastACKSequenceNumber := seq,
      sentPackets := q.sentPackets.filter fun kp => decide (seq ≤ kp.1),
      naks := lossRemoveBefore seq q.naks,
      flowWindowWasFull := q.flowWindowWasFull &&
        decide (q.flowWindowSize ≤
          (q.sentPackets.filter fun kp => decide (seq ≤ kp.1)).length) }
  else q

/-- The closed range of sequence numbers a NAK names. -/
def rangeList (a b : Nat) : List Nat :=
  (List.range (b + 1 - a)).map (a + ·)

/-- The guard of nak: the named closed range is well formed and every named
sequence number still has an entry in the in-flight index. -/
def nakApplies (a b : Nat) (q : SendQueue) : Bool :=
  decide (a ≤ b) && (rangeList a b).all fun k => (inFlight q k).isSome

/-- Modelled from the spec: nak(start, end) inserts the closed range into the
loss list provided entries with those sequence numbers still exist in the
in-flight index; a NAK for never-sent, already-acknowledged or already-purged
sequence numbers is silently ignored (SendQueue.h line 211 declares the
slot). -/
def nak (a b : Nat) (q : SendQueue) : SendQueue :=
  if nakApplies a b q = true then { q with naks := lossInsert (a, b) q.naks }
  else q

/-- Modelled from the spec: one cycle of the sender loop at time now with the
externally configured inactivity timeout.  Step order follows the spec: halt
with a single inactivity notification when the window has been full beyond the
timeout; otherwise prefer resending the lowest lost sequence number, reusing
the exact bytes held by the in-flight index and consuming no new sequence
number; otherwise send a new packet when the flow window has capacity,
assigning the next sequence number (and message number when the packet begins
a message) and recording it in the in-flight index; otherwise record that the
window is full (the timestamp is kept once set) or idle. -/
def doCycle (timeout now : Nat) (q : SendQueue) : CycleResult :=
  if q.isRunning = false then ⟨q, [], []⟩
  else if q.flowWindowWasFull = true ∧ timeout < now - q.flowWindowFullSince then
    ⟨{ q with isRunning := false }, [Event.queueInnactive], []⟩
  else if q.naks = [] then
    if q.sentPackets.length < q.flowWindowSize then
      match q.packets with
      | [] => ⟨q, [], []⟩
      | p :: rest =>
        ⟨{ q with
            packets := rest,
            currentSequenceNumber := q.currentSequenceNumber + 1,
            currentMessageNumber :=
              if p.beginsMessage then q.currentMessageNumber + 1
              else q.currentMessageNumber,
            sentPackets := (q.currentSequenceNumber + 1, p) :: q.sentPackets },
          [Event.packetSent p.bytes.length p.bytes.length],
          [(q.currentSequenceNumber + 1, p.bytes)]⟩
    else if q.flowWindowWasFull = true then ⟨q, [], []⟩
    else ⟨{ q with flowWindowWasFull := true, flowWindowFullSince := now }, [], []⟩
  else
    match inFlight q (getFirstSequenceNumber q.naks) with
    | some p =>
      ⟨{ q with naks := lossRemove (getFirstSequenceNumber q.naks) q.naks },
        [Event.packetRetransmitted],
        [(getFirstSequenceNumber q.naks, p.bytes)]⟩
    | none =>
      ⟨{ q with naks := lossRemove (getFirstSequenceNumber q.naks) q.naks },
        [], []⟩

/-- Run a list of scheduler cycles (no intervening acknowledgment or other
external call), collecting the emitted events. -/
def runCycles (timeout : Nat) (ts : List Nat) (q : SendQueue) :
    SendQueue × List Event :=
  match ts with
  | [] => (q, [])
  | t :: rest =>
    ((runCycles timeout rest (doCycle timeout t q).state).1,
      (doCycle timeout t q).events ++
        (runCycles timeout rest (doCycle timeout t q).state).2)

/-- The wire output of n consecutive scheduler cycles. -/
def cycleWires (timeout now : Nat) : Nat → SendQueue → List (Nat × List Nat)
  | 0, _ => []
  | n + 1, q =>
    (doCycle timeout now q).wire ++
      cycleWires timeout now n (doCycle timeout now q).state

/-- The public operations of the queue, for stating reachability. -/
inductive Op where
  | cycle (timeout now : Nat)
  | ack (seq : Nat)
  | nak (a b : Nat)
  | queuePacket (p : Packet)
  | setFlowWindowSize (n : Nat)
  | start
  | stop
deriving DecidableEq

def applyOp : Op → SendQueue → SendQueue
  | .cycle timeout now, q => (doCycle timeout now q).state
  | .ack s, q => ack s q
  | .nak a b, q => nak a b q
  | .queuePacket p, q => queuePacket p q
  | .setFlowWindowSize n, q => setFlowWindowSize n q
  | .start, q => start q
  | .stop, q => stop q

def runOps (ops : List Op) (q : SendQueue) : SendQueue :=
  ops.foldl (fun s op => applyOp op s) q

/-- The state of a freshly created queue, from the member initializers of
SendQueue.h: counters zero, flags false, all containers empty. -/
def initialQueue : SendQueue :=
  { packets := [], lastACKSequenceNumber := 0, currentMessageNumber := 0,
    currentSequenceNumber := 0, packetSendPeriod := 0, isRunning := false,
    flowWindowSize := 0, flowWindowWasFull := false, flowWindowFullSince := 0,
    naks := [], sentPackets := [] }

/-- A small concrete packet, used by the scenario statements. -/
def pk (i : Nat) : Packet := { bytes := [i], beginsMessage := false }

/-- The spec scenario: window size 3 is set and five packets are enqueued,
then the scheduler runs four cycles. -/
def windowOps : List Op :=
  [Op.start, Op.setFlowWindowSize 3, Op.queuePacket (pk 1), Op.queuePacket (pk 2),
   Op.queuePacket (pk 3), Op.queuePacket (pk 4), Op.queuePacket (pk 5),
   Op.cycle 100 0, Op.cycle 100 0, Op.cycle 100 0, Op.cycle 100 0]

/-- Three packets are sent under window size 3 and the window is then shrunk
externally below the in-flight count. -/
def shrinkOps : List Op :=
  [Op.start, Op.setFlowWindowSize 3, Op.queuePacket (pk 1), Op.queuePacket (pk 2),
   Op.queuePacket (pk 3), Op.cycle 100 0, Op.cycle 100 0, Op.cycle 100 0,
   Op.setFlowWindowSize 1]

/-- A running queue with sequence numbers 10, 11, 12 in flight and nothing
pending, as in the NAK scenario of the spec. -/
def c6Queue : SendQueue :=
  { packets := [], lastACKSequenceNumber := 10, currentMessageNumber := 0,
    currentSequenceNumber := 12, packetSendPeriod := 0, isRunning := true,
    flowWindowSize := 3, flowWindowWasFull := false, flowWindowFullSince := 0,
    naks := [], sentPackets := [(10, pk 1), (11, pk 2), (12, pk 3)] }

/-- A running queue whose flow window has been full since time 5. -/
def c9Queue : SendQueue :=
  { c6Queue with flowWindowWasFull := true, flowWindowFullSince := 5 }

/-- A running queue with one lost sequence number, its packet still in the
in-flight index, and new data pending. -/
def c1Queue : SendQueue :=
  { packets := [pk 9], lastACKSequenceNumber := 4, currentMessageNumber := 0,
    currentSequenceNumber := 5, packetSendPeriod := 0, isRunning := true,
    flowWindowSize := 8, flowWindowWasFull := false, flowWindowFullSince := 0,
    naks := [(5, 5)], sentPackets := [(5, pk 1)] }

theorem lossMem_nil (k : Nat) : lossMem k [] = false := rfl

theorem lossMem_cons (k : Nat) (r : Nat × Nat) (t : LossList) :
    lossMem k (r :: t) =
      ((decide (r.1 ≤ k) && decide (k ≤ r.2)) || lossMem k t) := by
  simp [lossMem]

theorem lossValid_cons (r : Nat × Nat) (t : LossList) :
    lossValid (r :: t) = (decide (r.1 ≤ r.2) && lossValid t) := by
  simp [lossValid]

/-- Removing a sequence number that the loss set does not hold leaves the
representation unchanged. -/
theorem lossRemove_absent (x : Nat) (L : LossList) (h : lossMem x L = false) :
    lossRemove x L = L := by
  induction L with
  | nil => rfl
  | cons r t ih =>
    rw [lossMem_cons, Bool.or_eq_false_iff] at h
    obtain ⟨hr, ht⟩ := h
    rw [Bool.and_eq_false_iff] at hr
    by_cases h1 : x < r.1
    · rw [lossRemove, if_pos h1]
    · rw [lossRemove, if_neg h1]
      have h2 : r.2 < x := by
        rcases hr with hr | hr <;> rw [decide_eq_false_iff_not] at hr <;> omega
      rw [if_pos h2, ih ht]

/-- Membership in the result of an insert: exactly the old members together
with the inserted range (the merging of overlapping or adjacent ranges adds no
other number). -/
theorem lossMem_insert (k : Nat) (L : LossList) : ∀ r : Nat × Nat,
    r.1 ≤ r.2 → lossValid L = true →
    lossMem k (lossInsert r L) =
      ((decide (r.1 ≤ k) && decide (k ≤ r.2)) || lossMem k L) := by
  induction L with
  | nil =>
    intro r _ _
    rw [lossInsert, lossMem_cons, lossMem_nil]
  | cons s t ih =>
    intro r hr hL
    rw [lossValid_cons, Bool.and_eq_true, decide_eq_true_eq] at hL
    obtain ⟨hs, ht⟩ := hL
    by_cases h1 : r.2 + 1 < s.1
    · rw [lossInsert, if_pos h1, lossMem_cons]
    · rw [lossInsert, if_neg h1]
      by_cases h2 : s.2 + 1 < r.1
      · rw [if_pos h2, lossMem_cons, ih r hr ht, lossMem_cons]
        cases decide (r.1 ≤ k) && decide (k ≤ r.2) <;>
          cases decide (s.1 ≤ k) && decide (k ≤ s.2) <;> simp
      · rw [if_neg h2]
        rw [ih (min r.1 s.1, max r.2 s.2) (by omega) ht]
        rw [lossMem_cons]
        have hcover :
            (decide (min r.1 s.1 ≤ k) && decide (k ≤ max r.2 s.2)) =
              ((decide (r.1 ≤ k) && decide (k ≤ r.2)) ||
                (decide (s.1 ≤ k) && decide (k ≤ s.2))) := by
          rw [Bool.eq_iff_iff]
          simp only [Bool.and_eq_true, Bool.or_eq_true, decide_eq_true_eq]
          omega
        rw [hcover, Bool.or_assoc]

/-- Insert preserves validity of the ranges. -/
theorem lossValid_insert (L : LossList) : ∀ r : Nat × Nat,
    r.1 ≤ r.2 → lossValid L = true → lossValid (lossInsert r L) = true := by
  induction L with
  | nil =>
    intro r hr _
    rw [lossInsert, lossValid_cons]
    simp [hr, lossValid]
  | cons s t ih =>
    intro r hr hL
    rw [lossValid_cons, Bool.and_eq_true, decide_eq_true_eq] at hL
    obtain ⟨hs, ht⟩ := hL
    by_cases h1 : r.2 + 1 < s.1
    · rw [lossInsert, if_pos h1, lossValid_cons, lossValid_cons]
      simp [hr, hs, ht]
    · rw [lossInsert, if_neg h1]
      by_cases h2 : s.2 + 1 < r.1
      · rw [if_pos h2, lossValid_cons]
        simp only [ih r hr ht, decide_eq_true_eq, Bool.and_true]
        exact hs
      · rw [if_neg h2]
        exact ih (min r.1 s.1, max r.2 s.2) (by omega) ht

/-- Every member of a loss list whose representation is sorted from a bound is
at least that bound. -/
theorem lossMem_sortedFrom_le (k : Nat) (L : LossList) : ∀ lo : Nat,
    lossSortedFrom lo L = true → lossMem k L = true → lo ≤ k := by
  induction L with
  | nil =>
    intro lo _ hm
    rw [lossMem_nil] at hm
    exact absurd hm (by simp)
  | cons r t ih =>
    intro lo hs hm
    rw [lossSortedFrom, Bool.and_eq_true, Bool.and_eq_true] at hs
    obtain ⟨⟨hlo, hv⟩, hrest⟩ := hs
    rw [decide_eq_true_eq] at hlo hv
    rw [lossMem_cons, Bool.or_eq_true] at hm
    rcases hm with hm | hm
    · rw [Bool.and_eq_true, decide_eq_true_eq, decide_eq_true_eq] at hm
      omega
    · have := ih (r.2 + 2) hrest hm
      omega

/-- No sequence number below the pointer survives a removeBefore. -/
theorem lossMem_removeBefore (k s : Nat) (L : LossList) (h : k < s) :
    lossMem k (lossRemoveBefore s L) = false := by
  induction L with
  | nil => rfl
  | cons r t ih =>
    rw [lossRemoveBefore, List.filterMap_cons]
    by_cases h1 : r.2 < s
    · rw [if_pos h1]
      exact ih
    · rw [if_neg h1]
      by_cases h2 : r.1 < s
      · rw [if_pos h2]
        rw [lossMem_cons]
        have : decide (s ≤ k) = false := by simp; omega
        rw [this, Bool.false_and, Bool.false_or]
        exact ih
      · rw [if_neg h2]
        rw [lossMem_cons]
        have : decide (r.1 ≤ k) = false := by simp; omega
        rw [this, Bool.false_and, Bool.false_or]
        exact ih

/-- The numbers a NAK range names are exactly the closed interval. -/
theorem mem_rangeList (k a b : Nat) : k ∈ rangeList a b ↔ (a ≤ k ∧ k ≤ b) := by
  simp only [rangeList, List.mem_map, List.mem_range]
  constructor
  · rintro ⟨i, hi, rfl⟩
    omega
  · intro h
    exact ⟨k - a, by omega, by omega⟩

/-- A stopped queue does nothing: no state change, no events. -/
theorem runCycles_stopped (timeout : Nat) (ts : List Nat) (q : SendQueue)
    (h : q.isRunning = false) : runCycles timeout ts q = (q, []) := by
  induction ts with
  | nil => rfl
  | cons t rest ih =>
    have hc : doCycle timeout t q = ⟨q, [], []⟩ := by
      unfold doCycle
      rw [if_pos h]
    simp only [runCycles, hc, ih]
    rfl

/-- A cycle that does not trip the inactivity condition keeps the queue
running, keeps the window-was-full flag and its timestamp, and emits no
inactivity notification. -/
theorem doCycle_quiet (timeout now : Nat) (q : SendQueue)
    (h1 : q.isRunning = true) (h2 : q.flowWindowWasFull = true)
    (hnt : ¬ timeout < now - q.flowWindowFullSince) :
    (doCycle timeout now q).state.isRunning = true ∧
    (doCycle timeout now q).state.flowWindowWasFull = true ∧
    (doCycle timeout now q).state.flowWindowFullSince = q.flowWindowFullSince ∧
    ((doCycle timeout now q).events.all fun e => !isInactiveEv e) = true := by
  have hA : ¬(q.isRunning = false) := by simp [h1]
  have hB : ¬(q.flowWindowWasFull = true ∧ timeout < now - q.flowWindowFullSince) :=
    fun hc => hnt hc.2
  unfold doCycle
  rw [if_neg hA, if_neg hB]
  by_cases hC : q.naks = []
  · rw [if_pos hC]
    by_cases hD : q.sentPackets.length < q.flowWindowSize
    · rw [if_pos hD]
      cases hp : q.packets with
      | nil => exact ⟨h1, h2, rfl, rfl⟩
      | cons p rest => exact ⟨h1, h2, rfl, by simp [isInactiveEv]⟩
    · rw [if_neg hD, if_pos h2]
      exact ⟨h1, h2, rfl, rfl⟩
  · rw [if_neg hC]
    cases hf : inFlight q (getFirstSequenceNumber q.naks) with
    | none => exact ⟨h1, h2, rfl, rfl⟩
    | some p => exact ⟨h1, h2, rfl, by simp [isInactiveEv]⟩

/-- A cycle on a running queue whose window has been full beyond the timeout
emits the inactivity notification and halts the queue. -/
theorem doCycle_fire (timeout now : Nat) (q : SendQueue)
    (h1 : q.isRunning = true) (h2 : q.flowWindowWasFull = true)
    (hx : timeout < now - q.flowWindowFullSince) :
    doCycle timeout now q =
      ⟨{ q with isRunning := false }, [Event.queueInnactive], []⟩ := by
  have hA : ¬(q.isRunning = false) := by simp [h1]
  unfold doCycle
  rw [if_neg hA, if_pos ⟨h2, hx⟩]

/-- An event prefix with no inactivity notification does not affect the
no-new-data-after-inactivity check. -/
theorem noNewAfterInactive_append (l1 l2 : List Event)
    (h : (l1.all fun e => !isInactiveEv e) = true) :
    noNewAfterInactive (l1 ++ l2) = noNewAfterInactive l2 := by
  induction l1 with
  | nil => rfl
  | cons e rest ih =>
    rw [List.all_cons, Bool.and_eq_true, Bool.not_eq_true'] at h
    rw [List.cons_append, noNewAfterInactive, if_neg (by simp [h.1])]
    exact ih h.2

/-- One scheduler cycle respects the flow window: if the in-flight count is
within the window before the cycle, it is within the window after it. -/
theorem doCycle_window (timeout now : Nat) (q : SendQueue)
    (h : q.sentPackets.length ≤ q.flowWindowSize) :
    (doCycle timeout now q).state.sentPackets.length ≤
      (doCycle timeout now q).state.flowWindowSize := by
  unfold doCycle
  by_cases hA : q.isRunning = false
  · rw [if_pos hA]
    exact h
  · rw [if_neg hA]
    by_cases hB : q.flowWindowWasFull = true ∧ timeout < now - q.flowWindowFullSince
    · rw [if_pos hB]
      exact h
    · rw [if_neg hB]
      by_cases hC : q.naks = []
      · rw [if_pos hC]
        by_cases hD : q.sentPackets.length < q.flowWindowSize
        · rw [if_pos hD]
          cases hp : q.packets with
          | nil => exact h
          | cons p rest => simpa using hD
        · rw [if_neg hD]
          by_cases hE : q.flowWindowWasFull = true
          · rw [if_pos hE]
            exact h
          · rw [if_neg hE]
            exact h
      · rw [if_neg hC]
        cases hf : inFlight q (getFirstSequenceNumber q.naks) with
        | none => exact h
        | some p => exact h

/-- Claim C4 as stated fails at x = y: a sequence number is not greater than
itself, yet the forward distance from a number to itself is zero, which is
less than half the modulus, so the claimed equivalence does not hold there. -/
theorem seq_wrap_cex : seqGT 0 0 = false ∧ seqFwdDist 0 0 < seqMod / 2 := by
  decide

/-- Claim C4 (amended): next of the maximum representable sequence number is
zero and zero compares as newer than it; and for all pairs of distinct
sequence numbers x and y, x is greater than y exactly when the forward
distance modulo the wrap value from y to x is less than half the modulus. -/
theorem seq_wrap_amended :
    seqNext (seqMod - 1) = 0 ∧ seqGT 0 (seqMod - 1) = true ∧
    ∀ x y : Nat, x % seqMod ≠ y % seqMod →
      (seqGT x y = true ↔ seqFwdDist y x < seqMod / 2) := by
  refine ⟨by decide, by decide, ?_⟩
  intro x y hxy
  simp only [seqGT, Bool.and_eq_true, decide_eq_true_eq]
  constructor
  · intro h
    exact h.2
  · intro h
    refine ⟨?_, h⟩
    simp only [seqFwdDist, seqMod] at *
    omega

theorem seq_wrap_amended_wit : seqGT 1 0 = true :=
  (seq_wrap_amended.2.2 1 0 (by decide)).mpr (by decide)

/-- Claim C8: loss-list operations are idempotent: removing an absent
sequence number leaves the loss list unchanged, and inserting the same range
twice yields the same set of lost sequence numbers as inserting it once. -/
theorem loss_list_idempotent :
    (∀ (x : Nat) (L : LossList), lossMem x L = false → lossRemove x L = L) ∧
    (∀ (r : Nat × Nat) (L : LossList), r.1 ≤ r.2 → lossValid L = true →
      ∀ k, lossMem k (lossInsert r (lossInsert r L)) =
        lossMem k (lossInsert r L)) := by
  refine ⟨lossRemove_absent, ?_⟩
  intro r L hr hL k
  rw [lossMem_insert k (lossInsert r L) r hr (lossValid_insert L r hr hL),
    lossMem_insert k L r hr hL, ← Bool.or_assoc, Bool.or_self]

theorem loss_list_idempotent_wit :
    lossRemove 5 [(1, 3)] = [(1, 3)] ∧
    lossMem 2 (lossInsert (1, 2) (lossInsert (1, 2) [(4, 5)])) =
      lossMem 2 (lossInsert (1, 2) [(4, 5)]) :=
  ⟨loss_list_idempotent.1 5 [(1, 3)] (by decide),
   loss_list_idempotent.2 (1, 2) [(4, 5)] (by decide) (by decide) 2⟩

/-- Claim C6: retransmission selection always takes the lowest outstanding
lost sequence number: on any well-formed loss list the first sequence number
is a member of the lost set and no member is below it; and after a NAK for
the in-flight range 10 to 12, three scheduler cycles resend 10, 11, 12 in
ascending order while the sequence-number counter is unchanged. -/
theorem resend_lowest_first :
    (∀ L : LossList, lossWF L = true → L ≠ [] →
      lossMem (getFirstSequenceNumber L) L = true ∧
      ∀ k, lossMem k L = true → getFirstSequenceNumber L ≤ k) ∧
    (cycleWires 100 0 3 (nak 10 12 c6Queue) =
        [(10, [1]), (11, [2]), (12, [3])] ∧
      (runCycles 100 [0, 0, 0] (nak 10 12 c6Queue)).1.currentSequenceNumber =
        c6Queue.currentSequenceNumber) := by
  constructor
  · intro L hw hne
    match L with
    | [] => exact absurd rfl hne
    | r :: t =>
      rw [lossWF, lossSortedFrom, Bool.and_eq_true, Bool.and_eq_true] at hw
      obtain ⟨⟨_, hv⟩, hrest⟩ := hw
      rw [decide_eq_true_eq] at hv
      constructor
      · rw [getFirstSequenceNumber, lossMem_cons]
        simp [hv]
      · intro k hk
        rw [getFirstSequenceNumber]
        rw [lossMem_cons, Bool.or_eq_true] at hk
        rcases hk with hk | hk
        · rw [Bool.and_eq_true, decide_eq_true_eq, decide_eq_true_eq] at hk
          omega
        · have := lossMem_sortedFrom_le k t (r.2 + 2) hrest hk
          omega
  · exact ⟨by decide, by decide⟩

theorem resend_lowest_first_wit :
    lossMem (getFirstSequenceNumber [(3, 4), (7, 9)]) [(3, 4), (7, 9)] = true :=
  (resend_lowest_first.1 [(3, 4), (7, 9)] (by decide) (by decide)).1

/-- Claim C7: nak(start, end) inserts the closed range into the loss list
only when every named sequence number still has an entry in the in-flight
index; a NAK naming any sequence number that was never sent, was already
acknowledged, or was already purged leaves the queue unchanged. -/
theorem nak_requires_inflight (a b : Nat) (q : SendQueue) :
    (a ≤ b → (∀ k, a ≤ k → k ≤ b → (inFlight q k).isSome = true) →
      nak a b q = { q with naks := lossInsert (a, b) q.naks }) ∧
    ((∃ k, a ≤ k ∧ k ≤ b ∧ inFlight q k = none) → nak a b q = q) := by
  constructor
  · intro hab hall
    rw [nak, if_pos ?_]
    rw [nakApplies, Bool.and_eq_true, decide_eq_true_eq, List.all_eq_true]
    refine ⟨hab, fun k hk => ?_⟩
    have hmem := (mem_rangeList k a b).1 hk
    exact hall k hmem.1 hmem.2
  · rintro ⟨k, hak, hkb, hnone⟩
    rw [nak, if_neg ?_]
    intro hcon
    rw [nakApplies, Bool.and_eq_true, List.all_eq_true] at hcon
    have := hcon.2 k ((mem_rangeList k a b).2 ⟨hak, hkb⟩)
    rw [hnone] at this
    exact absurd this (by simp)

theorem nak_requires_inflight_wit :
    nak 10 13 c6Queue = c6Queue ∧
    nak 10 12 c6Queue = { c6Queue with naks := lossInsert (10, 12) c6Queue.naks } :=
  ⟨(nak_requires_inflight 10 13 c6Queue).2 ⟨13, by decide, by decide, by decide⟩,
   (nak_requires_inflight 10 12 c6Queue).1 (by decide)
     (fun k h1 h2 => by interval_cases k <;> decide)⟩

/-- Claim C10: getCurrentSequenceNumber is a pure read-only observer: it
returns the SequenceNumber constructed from the last-sent-sequence counter
and leaves the queue state unchanged. -/
theorem get_current_seq_pure (q : SendQueue) :
    (getCurrentSequenceNumber q).1 = seqOfCounter q.currentSequenceNumber ∧
    (getCurrentSequenceNumber q).2 = q :=
  ⟨rfl, rfl⟩

/-- Claim C2: ack(seq) with seq at or below the cumulative pointer is a
no-op; with a newer seq the pointer advances to seq and every in-flight entry
and loss-list entry with a sequence number older than seq is purged. -/
theorem ack_monotonic (seq : Nat) (q : SendQueue) :
    (seq ≤ q.lastACKSequenceNumber → ack seq q = q) ∧
    (q.lastACKSequenceNumber < seq →
      (ack seq q).lastACKSequenceNumber = seq ∧
      (∀ k, k < seq → inFlight (ack seq q) k = none) ∧
      (∀ k, k < seq → lossMem k (ack seq q).naks = false)) := by
  constructor
  · intro h
    rw [ack, if_neg (by omega)]
  · intro h
    rw [ack, if_pos h]
    refine ⟨rfl, ?_, ?_⟩
    · intro k hk
      simp only [inFlight]
      rw [List.find?_eq_none.mpr, Option.map_none']
      intro x hx
      have hxf := (List.mem_filter.mp hx).2
      rw [decide_eq_true_eq] at hxf
      simp only [beq_iff_eq]
      omega
    · intro k hk
      exact lossMem_removeBefore k seq q.naks hk

theorem ack_monotonic_wit :
    ack 7 c6Queue = c6Queue ∧ (ack 12 c6Queue).lastACKSequenceNumber = 12 :=
  ⟨(ack_monotonic 7 c6Queue).1 (by decide),
   ((ack_monotonic 12 c6Queue).2 (by decide)).1⟩

/-- Claim C1: when the loss list is non-empty and new data is pending, a
scheduler cycle of a running, non-halted queue transmits no new packet: it
emits no packetSent notification, leaves the pending queue and the
sequence-number counter untouched, and anything it puts on the wire carries
the lowest lost sequence number. -/
theorem retransmit_priority (timeout now : Nat) (q : SendQueue)
    (h1 : q.isRunning = true)
    (h2 : ¬(q.flowWindowWasFull = true ∧ timeout < now - q.flowWindowFullSince))
    (h3 : q.naks ≠ []) (_h4 : q.packets ≠ []) :
    ((doCycle timeout now q).events.all fun e => !isSentEv e) = true ∧
    (doCycle timeout now q).state.packets = q.packets ∧
    (doCycle timeout now q).state.currentSequenceNumber =
      q.currentSequenceNumber ∧
    ∀ w ∈ (doCycle timeout now q).wire, w.1 = getFirstSequenceNumber q.naks := by
  have hA : ¬(q.isRunning = false) := by simp [h1]
  unfold doCycle
  rw [if_neg hA, if_neg h2, if_neg h3]
  cases hf : inFlight q (getFirstSequenceNumber q.naks) with
  | none => exact ⟨rfl, rfl, rfl, by simp⟩
  | some p => exact ⟨by simp [isSentEv], rfl, rfl, by simp⟩

theorem retransmit_priority_wit :
    (doCycle 100 0 c1Queue).state.packets = c1Queue.packets :=
  (retransmit_priority 100 0 c1Queue rfl (by decide) (by decide) (by decide)).2.1

/-- Claim C5: a retransmission sends exactly the bytes recorded in the
in-flight index for the lowest lost sequence number, assigns no new sequence
number (the counter is unchanged, and the in-flight index is untouched), and
emits exactly one packetRetransmitted notification. -/
theorem resend_bytes_exact (timeout now : Nat) (q : SendQueue) (p : Packet)
    (h1 : q.isRunning = true)
    (h2 : ¬(q.flowWindowWasFull = true ∧ timeout < now - q.flowWindowFullSince))
    (h3 : q.naks ≠ [])
    (h4 : inFlight q (getFirstSequenceNumber q.naks) = some p) :
    (doCycle timeout now q).wire = [(getFirstSequenceNumber q.naks, p.bytes)] ∧
    (doCycle timeout now q).events = [Event.packetRetransmitted] ∧
    (doCycle timeout now q).state.currentSequenceNumber =
      q.currentSequenceNumber ∧
    (doCycle timeout now q).state.sentPackets = q.sentPackets := by
  have hA : ¬(q.isRunning = false) := by simp [h1]
  unfold doCycle
  rw [if_neg hA, if_neg h2, if_neg h3, h4]
  exact ⟨rfl, rfl, rfl, rfl⟩

theorem resend_bytes_exact_wit :
    (doCycle 100 0 c1Queue).wire =
      [(getFirstSequenceNumber c1Queue.naks, (pk 1).bytes)] :=
  (resend_bytes_exact 100 0 c1Queue (pk 1) rfl (by decide) (by decide)
    (by decide)).1

/-- Claim C3 as stated fails: the in-flight count can exceed the externally
set flow window size, because setFlowWindowSize (SendQueue.h line 202) blindly
assigns the new size; after sending three packets under window size 3 and
shrinking the window to 1, three packets remain in flight. -/
theorem flow_window_cex :
    (runOps shrinkOps initialQueue).flowWindowSize <
      (runOps shrinkOps initialQueue).sentPackets.length := by
  decide

/-- Claim C3 (amended): every operation other than an external
setFlowWindowSize preserves the invariant that the number of in-flight
packets is at most the flow window size (in particular the scheduler never
starts a new transmission when the window is full, so the invariant can only
break when the window is externally shrunk below the in-flight count); and
the spec scenario holds: five packets enqueued under window size 3 give three
immediate transmissions with two left pending, and an ack covering the first
lets the fourth go out. -/
theorem flow_window_amended :
    (∀ (op : Op) (q : SendQueue), (∀ n, op ≠ Op.setFlowWindowSize n) →
      q.sentPackets.length ≤ q.flowWindowSize →
      (applyOp op q).sentPackets.length ≤ (applyOp op q).flowWindowSize) ∧
    ((runOps windowOps initialQueue).packets = [pk 4, pk 5] ∧
      (runOps windowOps initialQueue).sentPackets.length = 3 ∧
      (runOps (windowOps ++ [Op.ack 2, Op.cycle 100 0]) initialQueue).packets =
        [pk 5] ∧
      (runOps (windowOps ++ [Op.ack 2, Op.cycle 100 0]) initialQueue).sentPackets =
        [(4, pk 4), (3, pk 3), (2, pk 2)]) := by
  constructor
  · intro op q hop h
    cases op with
    | cycle timeout now => exact doCycle_window timeout now q h
    | ack s =>
      show (ack s q).sentPackets.length ≤ (ack s q).flowWindowSize
      rw [ack]
      by_cases hs : q.lastACKSequenceNumber < s
      · rw [if_pos hs]
        exact le_trans (List.length_filter_le _ _) h
      · rw [if_neg hs]
        exact h
    | nak a b =>
      show (nak a b q).sentPackets.length ≤ (nak a b q).flowWindowSize
      rw [nak]
      by_cases hn : nakApplies a b q = true
      · rw [if_pos hn]
        exact h
      · rw [if_neg hn]
        exact h
    | queuePacket p => exact h
    | setFlowWindowSize n => exact absurd rfl (hop n)
    | start => exact h
    | stop => exact Nat.zero_le _
  · exact ⟨by decide, by decide, by decide, by decide⟩

theorem flow_window_amended_wit :
    (applyOp (Op.ack 2) (runOps windowOps initialQueue)).sentPackets.length ≤
      (applyOp (Op.ack 2) (runOps windowOps initialQueue)).flowWindowSize :=
  flow_window_amended.1 (Op.ack 2) (runOps windowOps initialQueue)
    (fun _ h => Op.noConfusion h) (by decide)

/-- Claim C9: if a running queue's flow window has been full and some cycle
happens later than the inactivity timeout with no intervening ack, then the
run of cycles emits exactly one queueInnactive notification, no new-packet
notification follows it, and the queue is halted afterwards. -/
theorem inactivity_once (timeout : Nat) (ts : List Nat) (q : SendQueue)
    (h1 : q.isRunning = true) (h2 : q.flowWindowWasFull = true)
    (h3 : ∃ t ∈ ts, timeout < t - q.flowWindowFullSince) :
    (runCycles timeout ts q).2.countP isInactiveEv = 1 ∧
    noNewAfterInactive (runCycles timeout ts q).2 = true ∧
    (runCycles timeout ts q).1.isRunning = false := by
  induction ts generalizing q with
  | nil => simp at h3
  | cons t rest ih =>
    by_cases hx : timeout < t - q.flowWindowFullSince
    · have hfire := doCycle_fire timeout t q h1 h2 hx
      have hstop :
          runCycles timeout rest
            ({ q with isRunning := false } : SendQueue) =
            ({ q with isRunning := false }, []) :=
        runCycles_stopped timeout rest _ rfl
      simp only [runCycles, hfire, hstop]
      refine ⟨?_, ?_, ?_⟩
      · decide
      · decide
      · trivial
    · obtain ⟨ha, hb, hc, hd⟩ := doCycle_quiet timeout t q h1 h2 hx
      have h3' : ∃ t' ∈ rest,
          timeout < t' - (doCycle timeout t q).state.flowWindowFullSince := by
        rw [hc]
        obtain ⟨t', ht', hgt⟩ := h3
        rcases List.mem_cons.mp ht' with he | hm
        · subst he
          exact absurd hgt hx
        · exact ⟨t', hm, hgt⟩
      obtain ⟨hcount, hafter, hrun⟩ := ih (doCycle timeout t q).state ha hb h3'
      have hzero : (doCycle timeout t q).events.countP isInactiveEv = 0 := by
        rw [List.countP_eq_zero]
        intro e he
        have := List.all_eq_true.mp hd e he
        rw [Bool.not_eq_true'] at this
        simp [this]
      simp only [runCycles]
      refine ⟨?_, ?_, hrun⟩
      · rw [List.countP_append, hzero, hcount]
      · rw [noNewAfterInactive_append _ _ hd, hafter]

theorem inactivity_once_wit :
    (runCycles 100 [50, 200, 300] c9Queue).2.countP isInactiveEv = 1 :=
  (inactivity_once 100 [50, 200, 300] c9Queue rfl rfl (by decide)).1

end udt
